import Mathlib

/-!
Verification of the avrdude Python front-end material (`src/python/adgui.py`,
`src/python/swigtest.py`) against its natural-language specification.

The pure fuse bitfield codec (`dissect_fuse`, `default_fuse`,
`synthesize_fuse`), the device classifier, the fuse filename templating, the
GUI save/start handlers' control flow, the duplicated `clear_buffer` method
and the `message_type` helper are shallowly embedded below.  Python machine
integers are modelled as `Nat` (the values involved are non-negative;
`x &= ~mask` on a non-negative `x` is modelled as `x ^^^ (x &&& mask)`),
Python lists as `List`, Python strings as `String`/`List Char`.
-/

namespace Avrdude

/-- One `vlist` element of a fuse configuration entry:
`{value, label, vcomment}`. -/
structure VEntry where
  value : Nat
  label : String
  vcomment : String
deriving DecidableEq

/-- One fuse configuration table entry, as produced by
`ad.get_config_table()`:
`{name, vlist, memstr, memoffset, mask, lsh, initval, ccomment}`. -/
structure ConfigEntry where
  name : String
  vlist : List VEntry
  memstr : String
  memoffset : Nat
  mask : Nat
  lsh : Nat
  initval : Nat
  ccomment : String
deriving DecidableEq

/-- Python `r &= ~m` on a non-negative `r`: clear the bits of `m` in `r`. -/
def clearMask (r m : Nat) : Nat := r ^^^ (r &&& m)

/-- Does the character list start with the four characters `fuse`? -/
def fuseHere : List Char → Bool
  | 'f' :: 'u' :: 's' :: 'e' :: _ => true
  | _ => false

/-- Python `s.find('fuse') != -1`: does `fuse` occur as a substring? -/
def hasFuseSub : List Char → Bool
  | [] => false
  | c :: t => fuseHere (c :: t) || hasFuseSub t

/-- The key an entry is matched under: its `memstr` when that contains
`fuse`, else the synthesized virtual key `"fuse" + str(memoffset)`
(`adgui.py` lines 192-196, 224-228, 251-255). -/
def entryKey (i : ConfigEntry) : String :=
  if hasFuseSub i.memstr.toList then i.memstr else "fuse" ++ Nat.repr i.memoffset

/-- Guard shared by the three codec loops: `lock` entries are skipped, all
others are compared by key against the requested fuse. -/
def matchesKey (fuse : String) (i : ConfigEntry) : Bool :=
  if i.memstr = "lock" then false
  else if entryKey i = fuse then true
  else false

/-- Body of the `dissect_fuse` loop for one matching entry: extract
`(val & mask) >> lsh` and append `(name, label)` for every `vlist` option
whose `value` equals the extracted field (no early exit in the source). -/
def dissectStep (val : Nat) (result : List (String × String))
    (i : ConfigEntry) : List (String × String) :=
  let thisval := (val &&& i.mask) >>> i.lsh
  i.vlist.foldl
    (fun r j => if j.value = thisval then r ++ [(i.name, j.label)] else r)
    result

/-- `dissect_fuse(config, fuse, val)` from `adgui.py` lines 181-211. -/
def dissect_fuse (config : List ConfigEntry) (fuse : String) (val : Nat) :
    List (String × String) :=
  config.foldl (fun result i =>
    if i.memstr = "lock" then result
    else if entryKey i = fuse then dissectStep val result i
    else result) []

/-- Body of the `default_fuse` loop for one matching entry:
`resval &= ~mask; resval |= initval << lsh`. -/
def defaultStep (resval : Nat) (i : ConfigEntry) : Nat :=
  clearMask resval i.mask ||| i.initval <<< i.lsh

/-- `default_fuse(config, fuse)` from `adgui.py` lines 213-238: starting
from `0xff`, for every matching entry clear the mask bits and OR in
`initval << lsh`. -/
def default_fuse (config : List ConfigEntry) (fuse : String) : Nat :=
  config.foldl (fun resval i =>
    if i.memstr = "lock" then resval
    else if entryKey i = fuse then defaultStep resval i
    else resval) 0xff

/-- Body of the `synthesize_fuse` loop for one matching entry:
`resval &= ~mask`, then OR in `value << lsh` for every option whose label
occurs in `itemlist`. -/
def synthStep (itemlist : List String) (i : ConfigEntry) (resval : Nat) :
    Nat :=
  i.vlist.foldl
    (fun r j => if j.label ∈ itemlist then r ||| j.value <<< i.lsh else r)
    (clearMask resval i.mask)

/-- `synthesize_fuse(config, fuse, vallist)` from `adgui.py` lines 240-272:
`itemlist` collects the labels of `vallist`; starting from `0xff`, every
matching entry is processed by `synthStep`. -/
def synthesize_fuse (config : List ConfigEntry) (fuse : String)
    (vallist : List (String × String)) : Nat :=
  let itemlist := vallist.map Prod.snd
  config.foldl (fun resval i =>
    if i.memstr = "lock" then resval
    else if entryKey i = fuse then synthStep itemlist i resval
    else resval) 0xff

/-! ### Bitwise toolkit

All facts are proved by `Nat.testBit` extensionality. -/

theorem testBit_clearMask (r m k : Nat) :
    (clearMask r m).testBit k = (r.testBit k && !(m.testBit k)) := by
  simp only [clearMask, Nat.testBit_xor, Nat.testBit_and]
  cases r.testBit k <;> cases m.testBit k <;> rfl

theorem clearMask_clearMask (r a b : Nat) :
    clearMask (clearMask r a) b = clearMask r (a ||| b) := by
  apply Nat.eq_of_testBit_eq; intro k
  simp only [testBit_clearMask, Nat.testBit_or]
  cases r.testBit k <;> cases a.testBit k <;> cases b.testBit k <;> rfl

theorem clearMask_zero (r : Nat) : clearMask r 0 = r := by
  apply Nat.eq_of_testBit_eq; intro k
  simp only [testBit_clearMask, Nat.zero_testBit]
  cases r.testBit k <;> rfl

theorem land_lor_left (a b c : Nat) :
    a &&& (b ||| c) = (a &&& b) ||| (a &&& c) := by
  apply Nat.eq_of_testBit_eq; intro k
  simp only [Nat.testBit_and, Nat.testBit_or]
  cases a.testBit k <;> cases b.testBit k <;> cases c.testBit k <;> rfl

theorem lor_land_right (a b c : Nat) :
    (a ||| b) &&& c = (a &&& c) ||| (b &&& c) := by
  apply Nat.eq_of_testBit_eq; intro k
  simp only [Nat.testBit_and, Nat.testBit_or]
  cases a.testBit k <;> cases b.testBit k <;> cases c.testBit k <;> rfl

theorem land_zero' (a : Nat) : a &&& 0 = 0 := by
  apply Nat.eq_of_testBit_eq; intro k
  simp only [Nat.testBit_and, Nat.zero_testBit]
  cases a.testBit k <;> rfl

theorem land_assoc' (a b c : Nat) :
    (a &&& b) &&& c = a &&& (b &&& c) := by
  apply Nat.eq_of_testBit_eq; intro k
  simp only [Nat.testBit_and]
  cases a.testBit k <;> cases b.testBit k <;> cases c.testBit k <;> rfl

theorem lor_zero' (a : Nat) : a ||| 0 = a := by
  apply Nat.eq_of_testBit_eq; intro k
  simp only [Nat.testBit_or, Nat.zero_testBit]
  cases a.testBit k <;> rfl

theorem zero_lor' (a : Nat) : 0 ||| a = a := by
  apply Nat.eq_of_testBit_eq; intro k
  simp only [Nat.testBit_or, Nat.zero_testBit]
  cases a.testBit k <;> rfl

theorem lor_lor_self (x v : Nat) : (x ||| v) ||| v = x ||| v := by
  apply Nat.eq_of_testBit_eq; intro k
  simp only [Nat.testBit_or]
  cases x.testBit k <;> cases v.testBit k <;> rfl

theorem land_eq_zero_testBit {a b : Nat} (h : a &&& b = 0) (k : Nat) :
    a.testBit k = true → b.testBit k = false := by
  intro ha
  have h' := congrArg (fun n => Nat.testBit n k) h
  simp only [Nat.testBit_and, Nat.zero_testBit, ha, Bool.true_and] at h'
  exact h'

theorem clearMask_lor_of_disjoint (x v M : Nat) (h : v &&& M = 0) :
    clearMask (x ||| v) M = clearMask x M ||| v := by
  apply Nat.eq_of_testBit_eq; intro k
  cases hv : v.testBit k with
  | true =>
    have hM := land_eq_zero_testBit h k hv
    simp [testBit_clearMask, Nat.testBit_or, hv, hM]
  | false =>
    simp [testBit_clearMask, Nat.testBit_or, hv]

/-! ### Loop normal forms

Each of the three codec loops is a fold over the entries selected by
`matchesKey`. -/

theorem foldl_guard {α : Type} (fuse : String) (f : α → ConfigEntry → α) :
    ∀ (C : List ConfigEntry) (a : α),
      C.foldl (fun acc i =>
        if i.memstr = "lock" then acc
        else if entryKey i = fuse then f acc i
        else acc) a
      = (C.filter (matchesKey fuse)).foldl f a := by
  intro C
  induction C with
  | nil => intro a; rfl
  | cons i t ih =>
    intro a
    by_cases h1 : i.memstr = "lock"
    · simp [List.foldl_cons, List.filter_cons, matchesKey, h1, ih]
    · by_cases h2 : entryKey i = fuse
      · simp [List.foldl_cons, List.filter_cons, matchesKey, h1, h2, ih]
      · simp [List.foldl_cons, List.filter_cons, matchesKey, h1, h2, ih]

theorem dissect_fuse_eq_foldl (C : List ConfigEntry) (fuse : String)
    (val : Nat) :
    dissect_fuse C fuse val
      = (C.filter (matchesKey fuse)).foldl (dissectStep val) [] :=
  foldl_guard fuse (dissectStep val) C []

theorem default_fuse_eq_foldl (C : List ConfigEntry) (fuse : String) :
    default_fuse C fuse
      = (C.filter (matchesKey fuse)).foldl defaultStep 0xff :=
  foldl_guard fuse defaultStep C 0xff

theorem synthesize_fuse_eq_foldl (C : List ConfigEntry) (fuse : String)
    (vl : List (String × String)) :
    synthesize_fuse C fuse vl
      = (C.filter (matchesKey fuse)).foldl
          (fun r i => synthStep (vl.map Prod.snd) i r) 0xff :=
  foldl_guard fuse (fun r i => synthStep (vl.map Prod.snd) i r) C 0xff

/-- The `(name, label)` pairs one matching entry contributes to
`dissect_fuse`. -/
def entryPairs (val : Nat) (i : ConfigEntry) : List (String × String) :=
  (i.vlist.filter (fun j => j.value == (val &&& i.mask) >>> i.lsh)).map
    (fun j => (i.name, j.label))

theorem dissectStep_eq (val : Nat) (i : ConfigEntry) :
    ∀ r, dissectStep val r i = r ++ entryPairs val i := by
  show ∀ r, i.vlist.foldl _ r = _
  simp only [entryPairs]
  generalize (val &&& i.mask) >>> i.lsh = tv
  induction i.vlist with
  | nil => intro r; simp
  | cons j t ih =>
    intro r
    by_cases h : j.value = tv
    · simp [List.foldl_cons, List.filter_cons, h, ih]
    · simp [List.foldl_cons, List.filter_cons, h, ih]

theorem foldl_append_bind {α β : Type} (h : α → List β) :
    ∀ (l : List α) (r : List β),
      l.foldl (fun acc i => acc ++ h i) r = r ++ l.flatMap h := by
  intro l
  induction l with
  | nil => intro r; simp
  | cons i t ih => intro r; simp [List.foldl_cons, ih]

theorem dissect_fuse_eq_flatMap (C : List ConfigEntry) (fuse : String)
    (val : Nat) :
    dissect_fuse C fuse val
      = (C.filter (matchesKey fuse)).flatMap (entryPairs val) := by
  rw [dissect_fuse_eq_foldl]
  have : ∀ (l : List ConfigEntry) (r : List (String × String)),
      l.foldl (dissectStep val) r = r ++ l.flatMap (entryPairs val) := by
    intro l
    induction l with
    | nil => intro r; simp
    | cons i t ih =>
      intro r
      simp [List.foldl_cons, dissectStep_eq, ih]
  simpa using this (C.filter (matchesKey fuse)) []

/-! ### Claim C2: synthesize with an empty value list -/

/-- OR of the masks of a list of entries. -/
def orMasks : List ConfigEntry → Nat
  | [] => 0
  | i :: t => i.mask ||| orMasks t

theorem synthStep_nil (i : ConfigEntry) (r : Nat) :
    synthStep [] i r = clearMask r i.mask := by
  show i.vlist.foldl _ _ = _
  generalize clearMask r i.mask = r0
  induction i.vlist generalizing r0 with
  | nil => rfl
  | cons j t ih => simp [List.foldl_cons, ih]

theorem foldl_clearMask :
    ∀ (ms : List ConfigEntry) (r : Nat),
      ms.foldl (fun r i => clearMask r i.mask) r = clearMask r (orMasks ms)
  | [], r => by simp [orMasks, clearMask_zero]
  | i :: t, r => by
    simp only [List.foldl_cons]
    rw [foldl_clearMask t, clearMask_clearMask]
    rfl

theorem foldl_synthStep_nil (ms : List ConfigEntry) (r : Nat) :
    ms.foldl (fun r i => synthStep [] i r) r = clearMask r (orMasks ms) := by
  simp only [synthStep_nil]
  exact foldl_clearMask ms r

/-- C2: `synthesize_fuse(C, K, [])` is the all-ones byte `0xFF` with the
mask bits of every config entry matching `K` cleared; bitfields not
mentioned in the value list therefore default to the erased state `1`,
never to `0`. -/
theorem C2_synthesize_empty_is_baseline (C : List ConfigEntry) (K : String) :
    synthesize_fuse C K []
      = clearMask 0xff (orMasks (C.filter (matchesKey K))) := by
  rw [synthesize_fuse_eq_foldl]
  exact foldl_synthStep_nil (C.filter (matchesKey K)) 0xff

/-! ### Claim C3: what dissect returns -/

/-- Modelled from the spec's words for claim C3 as frozen: per selected
entry, the option is found by exact value equality and only the FIRST
match per entry is reported. -/
def dissectSpecFirstMatch (config : List ConfigEntry) (fuse : String)
    (val : Nat) : List (String × String) :=
  (config.filter (matchesKey fuse)).flatMap (fun i =>
    match i.vlist.find? (fun j => j.value == (val &&& i.mask) >>> i.lsh) with
    | some j => [(i.name, j.label)]
    | none => [])

/-- Modelled from the spec's words for claim C3 as amended: per selected
entry, ALL options whose value equals the extracted field are reported, in
`vlist` order, appended in config-table order. -/
def dissectSpecAllMatches (config : List ConfigEntry) (fuse : String)
    (val : Nat) : List (String × String) :=
  (config.filter (matchesKey fuse)).flatMap (fun i =>
    (i.vlist.filter (fun j => j.value == (val &&& i.mask) >>> i.lsh)).map
      (fun j => (i.name, j.label)))

/-- An entry whose `vlist` carries two options with the same value: the
source appends both, a first-match-per-entry rule would keep only one. -/
def dupValueEntry : ConfigEntry :=
  { name := "A", vlist := [⟨0, "a", ""⟩, ⟨0, "b", ""⟩], memstr := "fuse0",
    memoffset := 0, mask := 1, lsh := 0, initval := 0, ccomment := "" }

/-- C3 (counterexample): on an entry with two options of equal value,
`dissect_fuse` does not implement the claimed first-match-per-entry rule. -/
theorem C3_counterexample_dup_value :
    dissect_fuse [dupValueEntry] "fuse0" 0
      ≠ dissectSpecFirstMatch [dupValueEntry] "fuse0" 0 := by decide

/-- Helper shared with C1: `dissect_fuse` equals the spec-worded selection
with all matches per entry reported. -/
theorem dissect_fuse_eq_specAll (C : List ConfigEntry) (K : String)
    (v : Nat) : dissect_fuse C K v = dissectSpecAllMatches C K v := by
  rw [dissect_fuse_eq_flatMap]; rfl

/-- C3 (amended): `dissect_fuse` returns exactly the pairs selected by the
spec rule — `lock` entries excluded, `fuseN` key synthesis for entries
without a `fuse` substring, exact key match, field extraction
`(val & mask) >> lsh`, option lookup by exact value equality — except that
every matching option of an entry is appended (in `vlist` order), not just
the first. -/
theorem C3_dissect_exact (C : List ConfigEntry) (K : String) (v : Nat) :
    dissect_fuse C K v = dissectSpecAllMatches C K v :=
  dissect_fuse_eq_specAll C K v

/-! ### Claim C1: round-trip machinery -/

/-- The contribution `initval << lsh` of one entry to the default byte. -/
def entVal (i : ConfigEntry) : Nat := i.initval <<< i.lsh

/-- OR of the `initval << lsh` contributions of a list of entries. -/
def orInits : List ConfigEntry → Nat
  | [] => 0
  | i :: t => entVal i ||| orInits t

theorem lor_assoc' (a b c : Nat) : (a ||| b) ||| c = a ||| (b ||| c) := by
  apply Nat.eq_of_testBit_eq; intro k
  simp only [Nat.testBit_or]
  cases a.testBit k <;> cases b.testBit k <;> cases c.testBit k <;> rfl

theorem land_comm' (a b : Nat) : a &&& b = b &&& a := by
  apply Nat.eq_of_testBit_eq; intro k
  simp only [Nat.testBit_and]
  cases a.testBit k <;> cases b.testBit k <;> rfl

theorem land_lor_self (a c : Nat) : a &&& (a ||| c) = a := by
  apply Nat.eq_of_testBit_eq; intro k
  simp only [Nat.testBit_and, Nat.testBit_or]
  cases a.testBit k <;> cases c.testBit k <;> rfl

theorem land_lor_absorb (a b : Nat) : (a &&& b) ||| a = a := by
  apply Nat.eq_of_testBit_eq; intro k
  simp only [Nat.testBit_and, Nat.testBit_or]
  cases a.testBit k <;> cases b.testBit k <;> rfl

theorem zero_land' (a : Nat) : 0 &&& a = 0 := by
  rw [land_comm']; exact land_zero' a

theorem land_orMasks_zero {m : Nat} :
    ∀ {t : List ConfigEntry}, (∀ b ∈ t, m &&& b.mask = 0) →
      m &&& orMasks t = 0
  | [], _ => land_zero' m
  | b :: t, h => by
    show m &&& (b.mask ||| orMasks t) = 0
    rw [land_lor_left, h b (by simp),
      land_orMasks_zero (fun c hc => h c (by simp [hc]))]
    exact lor_zero' 0

theorem sub_disj {v m M : Nat} (hv : v &&& m = v) (h : m &&& M = 0) :
    v &&& M = 0 := by
  calc v &&& M = (v &&& m) &&& M := by rw [hv]
    _ = v &&& (m &&& M) := land_assoc' v m M
    _ = v &&& 0 := by rw [h]
    _ = 0 := land_zero' v

theorem defaultFold_closed :
    ∀ (ms : List ConfigEntry),
      ms.Pairwise (fun a b => a.mask &&& b.mask = 0) →
      (∀ i ∈ ms, entVal i &&& i.mask = entVal i) →
      ∀ r, ms.foldl defaultStep r = clearMask r (orMasks ms) ||| orInits ms := by
  intro ms
  induction ms with
  | nil =>
    intro _ _ r
    show r = clearMask r 0 ||| 0
    rw [clearMask_zero, lor_zero']
  | cons i t ih =>
    intro hM hfit r
    obtain ⟨hd, ht⟩ := List.pairwise_cons.mp hM
    have hv : entVal i &&& orMasks t = 0 :=
      sub_disj (hfit i (by simp)) (land_orMasks_zero hd)
    show t.foldl defaultStep (defaultStep r i)
      = clearMask r (i.mask ||| orMasks t) ||| (entVal i ||| orInits t)
    rw [ih ht (fun b hb => hfit b (by simp [hb]))]
    show clearMask (clearMask r i.mask ||| entVal i) (orMasks t) ||| orInits t = _
    rw [clearMask_lor_of_disjoint _ _ _ hv, clearMask_clearMask, lor_assoc']

theorem mask_land_orMasks_self :
    ∀ {ms : List ConfigEntry} {e : ConfigEntry}, e ∈ ms →
      e.mask &&& orMasks ms = e.mask := by
  intro ms
  induction ms with
  | nil => intro e he; cases he
  | cons b t ih =>
    intro e he
    rcases List.mem_cons.mp he with rfl | hm
    · exact land_lor_self e.mask (orMasks t)
    · show e.mask &&& (b.mask ||| orMasks t) = e.mask
      rw [land_lor_left, ih hm]
      exact land_lor_absorb e.mask b.mask

theorem clearMask_land_of_sub (x : Nat) {m M : Nat} (h : m &&& M = m) :
    clearMask x M &&& m = 0 := by
  apply Nat.eq_of_testBit_eq; intro k
  cases hm : m.testBit k with
  | true =>
    have hMk : M.testBit k = true := by
      have h' := congrArg (fun n => Nat.testBit n k) h
      simp only [Nat.testBit_and, hm] at h'
      simpa using h'
    simp [Nat.testBit_and, testBit_clearMask, hMk, Nat.zero_testBit, hm]
  | false =>
    simp [Nat.testBit_and, testBit_clearMask, hm, Nat.zero_testBit]

theorem orInits_land_zero :
    ∀ {t : List ConfigEntry} {m : Nat}, (∀ c ∈ t, entVal c &&& m = 0) →
      orInits t &&& m = 0
  | [], m, _ => zero_land' m
  | c :: t, m, h => by
    show (entVal c ||| orInits t) &&& m = 0
    rw [lor_land_right, h c (by simp),
      orInits_land_zero (fun b hb => h b (by simp [hb]))]
    exact lor_zero' 0

theorem orInits_land :
    ∀ {ms : List ConfigEntry},
      ms.Pairwise (fun a b => a.mask &&& b.mask = 0) →
      (∀ i ∈ ms, entVal i &&& i.mask = entVal i) →
      ∀ {e : ConfigEntry}, e ∈ ms → orInits ms &&& e.mask = entVal e := by
  intro ms
  induction ms with
  | nil => intro _ _ e he; cases he
  | cons b t ih =>
    intro hM hfit e he
    obtain ⟨hd, ht⟩ := List.pairwise_cons.mp hM
    show (entVal b ||| orInits t) &&& e.mask = entVal e
    rw [lor_land_right]
    rcases List.mem_cons.mp he with rfl | hm
    · rw [hfit e (by simp)]
      have h0 : orInits t &&& e.mask = 0 :=
        orInits_land_zero (fun c hc =>
          sub_disj (hfit c (by simp [hc]))
            (by rw [land_comm']; exact hd c hc))
      rw [h0, lor_zero']
    · have h1 : entVal b &&& e.mask = 0 :=
        sub_disj (hfit b (by simp)) (hd e hm)
      rw [h1, ih ht (fun i hi => hfit i (by simp [hi])) hm, zero_lor']

theorem defVal_extract {ms : List ConfigEntry}
    (hM : ms.Pairwise (fun a b => a.mask &&& b.mask = 0))
    (hfit : ∀ i ∈ ms, entVal i &&& i.mask = entVal i)
    {e : ConfigEntry} (he : e ∈ ms) :
    (clearMask 0xff (orMasks ms) ||| orInits ms) &&& e.mask = entVal e := by
  rw [lor_land_right, clearMask_land_of_sub _ (mask_land_orMasks_self he),
    orInits_land hM hfit he, zero_lor']

theorem flatMap_congr_mem {α β : Type} {l : List α} {f g : α → List β}
    (h : ∀ a ∈ l, f a = g a) : l.flatMap f = l.flatMap g := by
  induction l with
  | nil => rfl
  | cons a t ih =>
    simp only [List.flatMap_cons, h a (by simp),
      ih (fun b hb => h b (by simp [hb]))]

theorem foldl_congr_mem {α β : Type} {l : List β} {f g : α → β → α}
    (h : ∀ a, ∀ i ∈ l, f a i = g a i) : ∀ a, l.foldl f a = l.foldl g a := by
  induction l with
  | nil => intro a; rfl
  | cons i t ih =>
    intro a
    simp only [List.foldl_cons, h a i (by simp)]
    exact ih (fun a b hb => h a b (by simp [hb])) (g a i)

theorem synthInner_none {items : List String} {lshv : Nat} :
    ∀ {l : List VEntry}, (∀ j ∈ l, j.label ∉ items) →
      ∀ r, l.foldl
        (fun r j => if j.label ∈ items then r ||| j.value <<< lshv else r) r
        = r
  | [], _, r => rfl
  | j :: t, h, r => by
    simp only [List.foldl_cons, if_neg (h j (by simp))]
    exact synthInner_none (fun x hx => h x (by simp [hx])) r

theorem synthInner_const {items : List String} {lshv w : Nat} :
    ∀ {l : List VEntry},
      (∀ j ∈ l, j.label ∈ items → j.value <<< lshv = w) →
      (∃ j ∈ l, j.label ∈ items) →
      ∀ r, l.foldl
        (fun r j => if j.label ∈ items then r ||| j.value <<< lshv else r) r
        = r ||| w
  | [], _, hex, _ => absurd hex (by simp)
  | j :: t, hc, hex, r => by
    by_cases hj : j.label ∈ items
    · simp only [List.foldl_cons, if_pos hj, hc j (by simp) hj]
      by_cases hex' : ∃ x ∈ t, x.label ∈ items
      · rw [synthInner_const (fun x hx => hc x (by simp [hx])) hex' (r ||| w),
          lor_lor_self]
      · rw [synthInner_none (fun x hx hxin => hex' ⟨x, hx, hxin⟩) (r ||| w)]
    · simp only [List.foldl_cons, if_neg hj]
      obtain ⟨x, hx, hxin⟩ := hex
      rcases List.mem_cons.mp hx with rfl | hxt
      · exact absurd hxin hj
      · exact synthInner_const (fun y hy => hc y (by simp [hy])) ⟨x, hxt, hxin⟩ r

theorem synthStep_eq_defaultStep {items : List String} {e : ConfigEntry}
    (hsel : ∀ j ∈ e.vlist, (j.label ∈ items ↔ j.value = e.initval))
    (hrep : ∃ j ∈ e.vlist, j.value = e.initval) (r : Nat) :
    synthStep items e r = defaultStep r e := by
  show e.vlist.foldl _ (clearMask r e.mask) = _
  obtain ⟨j0, hj0, hj0v⟩ := hrep
  rw [synthInner_const
    (fun j hj hjin => by rw [(hsel j hj).mp hjin])
    ⟨j0, hj0, (hsel j0 hj0).mpr hj0v⟩ (clearMask r e.mask)]
  rfl

theorem synth_dissect_default (C : List ConfigEntry) (K : String)
    (hM : (C.filter (matchesKey K)).Pairwise
      (fun a b => a.mask &&& b.mask = 0))
    (hS : ∀ i ∈ C.filter (matchesKey K), ∀ j ∈ i.vlist,
      (j.value <<< i.lsh) &&& i.mask = j.value <<< i.lsh)
    (hU : (((C.filter (matchesKey K)).flatMap
      (fun i => i.vlist.map (fun j => (i, j)))).map
        (fun p => p.2.label)).Nodup)
    (hD : ∀ i ∈ C.filter (matchesKey K), ∃ j ∈ i.vlist,
      j.value = i.initval) :
    synthesize_fuse C K (dissect_fuse C K (default_fuse C K))
      = default_fuse C K := by
  have hfit : ∀ i ∈ C.filter (matchesKey K), entVal i &&& i.mask = entVal i := by
    intro i hi
    obtain ⟨j, hj, hjv⟩ := hD i hi
    have h := hS i hi j hj
    rw [hjv] at h
    exact h
  have hdef : default_fuse C K
      = clearMask 0xff (orMasks (C.filter (matchesKey K)))
        ||| orInits (C.filter (matchesKey K)) := by
    rw [default_fuse_eq_foldl]
    exact defaultFold_closed _ hM hfit 0xff
  have hfield : ∀ e ∈ C.filter (matchesKey K),
      (default_fuse C K &&& e.mask) >>> e.lsh = e.initval := by
    intro e he
    rw [hdef, defVal_extract hM hfit he]
    show (e.initval <<< e.lsh) >>> e.lsh = e.initval
    exact Nat.shiftLeft_shiftRight e.initval e.lsh
  have hx0 : dissect_fuse C K (default_fuse C K)
      = (C.filter (matchesKey K)).flatMap
          (fun e => (e.vlist.filter (fun j => j.value == e.initval)).map
            (fun j => (e.name, j.label))) := by
    rw [dissect_fuse_eq_flatMap]
    apply flatMap_congr_mem
    intro e he
    simp only [entryPairs, hfield e he]
  have hmem : ∀ e ∈ C.filter (matchesKey K), ∀ j ∈ e.vlist,
      (j.label ∈ (dissect_fuse C K (default_fuse C K)).map Prod.snd
        ↔ j.value = e.initval) := by
    intro e he j hj
    rw [hx0]
    constructor
    · intro hin
      simp only [List.mem_map, List.mem_flatMap, List.mem_filter,
        beq_iff_eq] at hin
      obtain ⟨p, ⟨e', he', j', ⟨hj', hval'⟩, hp⟩, hlbl⟩ := hin
      have hpair : (e, j) ∈ (C.filter (matchesKey K)).flatMap
          (fun i => i.vlist.map (fun j => (i, j))) := by
        simp only [List.mem_flatMap, List.mem_map]
        exact ⟨e, he, j, hj, rfl⟩
      have hpair' : (e', j') ∈ (C.filter (matchesKey K)).flatMap
          (fun i => i.vlist.map (fun j => (i, j))) := by
        simp only [List.mem_flatMap, List.mem_map]
        exact ⟨e', List.mem_filter.mpr he', j', hj', rfl⟩
      have hlab : j'.label = j.label := by
        rw [← hlbl, ← hp]
      have heq : ((e', j') : ConfigEntry × VEntry) = (e, j) :=
        List.inj_on_of_nodup_map hU hpair' hpair hlab
      have hj'j : j' = j := congrArg Prod.snd heq
      have he'e : e' = e := congrArg Prod.fst heq
      rw [← hj'j, hval', he'e]
    · intro hval
      simp only [List.mem_map, List.mem_flatMap, List.mem_filter,
        beq_iff_eq]
      exact ⟨(e.name, j.label), ⟨e, List.mem_filter.mp he, j, ⟨hj, hval⟩, rfl⟩, rfl⟩
  rw [synthesize_fuse_eq_foldl]
  conv_rhs => rw [default_fuse_eq_foldl]
  exact foldl_congr_mem
    (fun a i hi => synthStep_eq_defaultStep (hmem i hi) (hD i hi) a) 0xff

/-- An entry whose datasheet default (`initval = 1`) has no option in its
`vlist`: dissecting the default byte selects nothing, so the first
synthesize/dissect cycle moves to the all-bits-cleared option instead. -/
def missingInitEntry : ConfigEntry :=
  { name := "A", vlist := [⟨0, "z", ""⟩], memstr := "fuse0",
    memoffset := 0, mask := 1, lsh := 0, initval := 1, ccomment := "" }

/-- C1 (counterexample): the round trip as claimed fails for a config
table whose entry has a default field value carried by no option. -/
theorem C1_counterexample_missing_initval :
    ¬ (dissect_fuse [missingInitEntry] "fuse0"
        (synthesize_fuse [missingInitEntry] "fuse0"
          (dissect_fuse [missingInitEntry] "fuse0"
            (synthesize_fuse [missingInitEntry] "fuse0"
              (dissect_fuse [missingInitEntry] "fuse0"
                (default_fuse [missingInitEntry] "fuse0")))))
      = dissect_fuse [missingInitEntry] "fuse0"
          (default_fuse [missingInitEntry] "fuse0")) := by decide

/-- C1 (amended): for config tables whose entries matching `K` have
pairwise disjoint masks, options that stay within their mask when shifted,
globally distinct option labels, and an option carrying the entry's
`initval`, the dissect/synthesize round trip over the default byte is
stable: each synthesize inverts the preceding dissect back to the default
byte, so the final dissection equals the direct dissection of the default
byte. -/
theorem C1_roundtrip_wellformed (C : List ConfigEntry) (K : String)
    (hM : (C.filter (matchesKey K)).Pairwise
      (fun a b => a.mask &&& b.mask = 0))
    (hS : ∀ i ∈ C.filter (matchesKey K), ∀ j ∈ i.vlist,
      (j.value <<< i.lsh) &&& i.mask = j.value <<< i.lsh)
    (hU : (((C.filter (matchesKey K)).flatMap
      (fun i => i.vlist.map (fun j => (i, j)))).map
        (fun p => p.2.label)).Nodup)
    (hD : ∀ i ∈ C.filter (matchesKey K), ∃ j ∈ i.vlist,
      j.value = i.initval) :
    dissect_fuse C K (synthesize_fuse C K
      (dissect_fuse C K (synthesize_fuse C K
        (dissect_fuse C K (default_fuse C K)))))
      = dissect_fuse C K (default_fuse C K) := by
  have h := synth_dissect_default C K hM hS hU hD
  rw [h, h]

/-- A small well-formed `lfuse` table: the spec §8 example bitfield
`SUT_CKSEL` plus a `CKDIV8` bit. -/
def egLfuseTable : List ConfigEntry :=
  [{ name := "SUT_CKSEL", vlist := [⟨2, "intrcosc", ""⟩, ⟨0x22, "extosc", ""⟩],
     memstr := "lfuse", memoffset := 0, mask := 0x3f, lsh := 0, initval := 2,
     ccomment := "" },
   { name := "CKDIV8", vlist := [⟨0, "div8", ""⟩, ⟨1, "nodiv8", ""⟩],
     memstr := "lfuse", memoffset := 0, mask := 0x80, lsh := 7, initval := 1,
     ccomment := "" }]

/-- C1 (witness): the hypotheses of `C1_roundtrip_wellformed` hold for the
concrete two-entry `lfuse` table and the round trip there is stable. -/
theorem C1_roundtrip_wellformed_witness :
    ((egLfuseTable.filter (matchesKey "lfuse")).Pairwise
      (fun a b => a.mask &&& b.mask = 0))
    ∧ (∀ i ∈ egLfuseTable.filter (matchesKey "lfuse"), ∀ j ∈ i.vlist,
        (j.value <<< i.lsh) &&& i.mask = j.value <<< i.lsh)
    ∧ (((egLfuseTable.filter (matchesKey "lfuse")).flatMap
        (fun i => i.vlist.map (fun j => (i, j)))).map
          (fun p => p.2.label)).Nodup
    ∧ (∀ i ∈ egLfuseTable.filter (matchesKey "lfuse"), ∃ j ∈ i.vlist,
        j.value = i.initval)
    ∧ dissect_fuse egLfuseTable "lfuse" (synthesize_fuse egLfuseTable "lfuse"
        (dissect_fuse egLfuseTable "lfuse" (synthesize_fuse egLfuseTable "lfuse"
          (dissect_fuse egLfuseTable "lfuse"
            (default_fuse egLfuseTable "lfuse")))))
        = dissect_fuse egLfuseTable "lfuse"
            (default_fuse egLfuseTable "lfuse") :=
  ⟨by decide, by decide, by decide, by decide,
   C1_roundtrip_wellformed egLfuseTable "lfuse"
     (by decide) (by decide) (by decide) (by decide)⟩

/-! ### Claim C7: device classification (`classify_devices`, lines 66-93) -/

/-- The two fields of an AVR part descriptor that `classify_devices`
consults. -/
structure AvrPart where
  id : String
  desc : String
deriving DecidableEq

/-- Python `s.startswith(pat)` over the character lists. -/
def startsWithAux : List Char → List Char → Bool
  | [], _ => true
  | _ :: _, [] => false
  | p :: ps, c :: cs => (p = c) && startsWithAux ps cs

def pyStartsWith (s pat : String) : Bool := startsWithAux pat.toList s.toList

/-- Consume a maximal run of decimal digits. -/
def digitsMany : List Char → List Char
  | [] => []
  | c :: cs => if c.isDigit then digitsMany cs else c :: cs

/-- Consume one-or-more decimal digits, returning the rest on success. -/
def digitsOne : List Char → Option (List Char)
  | [] => none
  | c :: cs => if c.isDigit then some (digitsMany cs) else none

/-- `re.match` of `AVR\d+[DE][A-Z]\d+` against the start of `s`.  Since
`[DE]` and `[A-Z]` are disjoint from `\d`, the greedy digit runs need no
backtracking and this deterministic scan is equivalent to the regex. -/
def avrDeMatch (s : String) : Bool :=
  match s.toList with
  | 'A' :: 'V' :: 'R' :: rest =>
    match digitsOne rest with
    | none => false
    | some r1 =>
      match r1 with
      | [] => false
      | c :: r2 =>
        if c = 'D' ∨ c = 'E' then
          match r2 with
          | [] => false
          | d :: r3 =>
            if d.isUpper then
              match digitsOne r3 with
              | none => false
              | some _ => true
            else false
        else false
  | _ => false

/-- The six family buckets of `classify_devices`. -/
inductive Family
  | at90
  | attiny
  | atmega
  | atxmega
  | avr_de
  | other
deriving DecidableEq

/-- The if/elif chain of `classify_devices`, first matching rule wins. -/
def familyOf (desc : String) : Family :=
  if pyStartsWith desc "AT90" then .at90
  else if pyStartsWith desc "ATtiny" then .attiny
  else if pyStartsWith desc "ATmega" then .atmega
  else if pyStartsWith desc "ATxmega" then .atxmega
  else if avrDeMatch desc then .avr_de
  else .other

/-- The result dictionary of `classify_devices`. -/
structure DeviceBuckets where
  at90 : List String
  attiny : List String
  atmega : List String
  atxmega : List String
  avr_de : List String
  other : List String
deriving DecidableEq

/-- Append a desc to the bucket selected by the if/elif chain. -/
def addToBucket (r : DeviceBuckets) (f : Family) (d : String) :
    DeviceBuckets :=
  match f with
  | .at90 => { r with at90 := r.at90 ++ [d] }
  | .attiny => { r with attiny := r.attiny ++ [d] }
  | .atmega => { r with atmega := r.atmega ++ [d] }
  | .atxmega => { r with atxmega := r.atxmega ++ [d] }
  | .avr_de => { r with avr_de := r.avr_de ++ [d] }
  | .other => { r with other := r.other ++ [d] }

/-- `classify_devices` from `adgui.py` lines 66-93, over the walked part
list: parts whose `id` starts with a dot are skipped, all others have
their `desc` appended to the bucket of the first matching rule. -/
def classify_devices (parts : List AvrPart) : DeviceBuckets :=
  parts.foldl (fun result p =>
    if pyStartsWith p.id "." then result
    else addToBucket result (familyOf p.desc) p.desc)
    ⟨[], [], [], [], [], []⟩

/-- The parts that land in any bucket at all. -/
def visibleParts (parts : List AvrPart) : List AvrPart :=
  parts.filter (fun p => !pyStartsWith p.id ".")

theorem classify_aux (parts : List AvrPart) :
    ∀ (acc : DeviceBuckets),
      (parts.foldl (fun result p =>
        if pyStartsWith p.id "." then result
        else addToBucket result (familyOf p.desc) p.desc) acc)
      = ⟨acc.at90 ++ ((visibleParts parts).filter
            (fun p => familyOf p.desc == Family.at90)).map (fun p => p.desc),
         acc.attiny ++ ((visibleParts parts).filter
            (fun p => familyOf p.desc == Family.attiny)).map (fun p => p.desc),
         acc.atmega ++ ((visibleParts parts).filter
            (fun p => familyOf p.desc == Family.atmega)).map (fun p => p.desc),
         acc.atxmega ++ ((visibleParts parts).filter
            (fun p => familyOf p.desc == Family.atxmega)).map (fun p => p.desc),
         acc.avr_de ++ ((visibleParts parts).filter
            (fun p => familyOf p.desc == Family.avr_de)).map (fun p => p.desc),
         acc.other ++ ((visibleParts parts).filter
            (fun p => familyOf p.desc == Family.other)).map (fun p => p.desc)⟩ := by
  induction parts with
  | nil => intro acc; simp [visibleParts]
  | cons p t ih =>
    intro acc
    by_cases hdot : pyStartsWith p.id "."
    · simp only [List.foldl_cons, if_pos hdot]
      rw [ih acc]
      simp [visibleParts, List.filter_cons, hdot]
    · simp only [List.foldl_cons, if_neg hdot]
      rw [ih (addToBucket acc (familyOf p.desc) p.desc)]
      cases hf : familyOf p.desc <;>
        simp [visibleParts, List.filter_cons, hdot, hf, addToBucket]

/-- C7: every part whose id does not start with a dot contributes its
`desc` to exactly the bucket chosen by the first matching rule of the
chain AT90 / ATtiny / ATmega / ATxmega / `AVR\d+[DE][A-Z]\d+` / other,
in catalog order. -/
theorem C7_classify_devices_buckets (parts : List AvrPart) :
    classify_devices parts
      = ⟨((visibleParts parts).filter
            (fun p => familyOf p.desc == Family.at90)).map (fun p => p.desc),
         ((visibleParts parts).filter
            (fun p => familyOf p.desc == Family.attiny)).map (fun p => p.desc),
         ((visibleParts parts).filter
            (fun p => familyOf p.desc == Family.atmega)).map (fun p => p.desc),
         ((visibleParts parts).filter
            (fun p => familyOf p.desc == Family.atxmega)).map (fun p => p.desc),
         ((visibleParts parts).filter
            (fun p => familyOf p.desc == Family.avr_de)).map (fun p => p.desc),
         ((visibleParts parts).filter
            (fun p => familyOf p.desc == Family.other)).map (fun p => p.desc)⟩ := by
  rw [classify_devices, classify_aux parts]
  simp

/-! ### Claim C8: fuse filename templating (`fuse_filename`, lines 1429-1435) -/

/-- Python `s.find(c)`: index of the first occurrence, `none` for `-1`. -/
def findChar (c : Char) : List Char → Option Nat
  | [] => none
  | d :: t => if d = c then some 0 else (findChar c t).map (· + 1)

/-- `fuse_filename` from `adgui.py` lines 1429-1435: a falsy (empty)
stored filename yields `\'\'`; otherwise the first `%` is replaced by the
fuse name via slicing, and a pattern without `%` is returned unchanged. -/
def fuse_filename (fusename fuse : String) : String :=
  if fusename = "" then ""
  else
    match findChar '%' fusename.toList with
    | some p =>
      String.mk (fusename.toList.take p) ++ fuse
        ++ String.mk (fusename.toList.drop (p + 1))
    | none => fusename

theorem findChar_none (c : Char) :
    ∀ (l : List Char), c ∉ l → findChar c l = none
  | [], _ => rfl
  | d :: t, h => by
    have hd : ¬ d = c := fun e => h (by simp [e])
    simp [findChar, hd, findChar_none c t (fun hm => h (by simp [hm]))]

theorem findChar_append_not_mem (c : Char) (l₂ : List Char) :
    ∀ (l₁ : List Char), c ∉ l₁ →
      findChar c (l₁ ++ c :: l₂) = some l₁.length
  | [], _ => by simp [findChar]
  | d :: t, h => by
    have hd : ¬ d = c := fun e => h (by simp [e])
    simp [findChar, hd,
      findChar_append_not_mem c l₂ t (fun hm => h (by simp [hm]))]

/-- C8: `fuse_filename` returns the empty string when no filename has been
supplied, returns a `%`-free pattern unchanged for every fuse, and
substitutes the (first) `%` of the pattern with the fuse name. -/
theorem C8_fuse_filename_template (fusename fuse : String)
    (l₁ l₂ : List Char) :
    (fuse_filename "" fuse = "")
    ∧ ('%' ∉ fusename.toList → fuse_filename fusename fuse = fusename)
    ∧ (fusename.toList = l₁ ++ '%' :: l₂ → '%' ∉ l₁ →
        fuse_filename fusename fuse = String.mk l₁ ++ fuse ++ String.mk l₂) := by
  refine ⟨rfl, ?_, ?_⟩
  · intro h
    unfold fuse_filename
    by_cases he : fusename = ""
    · rw [if_pos he, he]
    · rw [if_neg he, findChar_none '%' _ h]
  · intro hdecomp hnot
    have hne : fusename ≠ "" := by
      intro he
      rw [he] at hdecomp
      simp at hdecomp
    unfold fuse_filename
    rw [if_neg hne, hdecomp, findChar_append_not_mem '%' l₂ l₁ hnot]
    simp [List.take_left, List.drop_append]

/-- C8 (witness): concrete instances of both template behaviours. -/
theorem C8_fuse_filename_template_witness :
    ('%' ∉ ("fuses.hex" : String).toList
      ∧ fuse_filename "fuses.hex" "lfuse" = "fuses.hex")
    ∧ (("f%.hex" : String).toList = ['f'] ++ '%' :: ['.', 'h', 'e', 'x']
      ∧ '%' ∉ ['f']
      ∧ fuse_filename "f%.hex" "lfuse"
          = String.mk ['f'] ++ "lfuse" ++ String.mk ['.', 'h', 'e', 'x']) :=
  ⟨⟨by decide,
    (C8_fuse_filename_template "fuses.hex" "lfuse" [] []).2.1 (by decide)⟩,
   ⟨by decide, by decide,
    (C8_fuse_filename_template "f%.hex" "lfuse" ['f'] ['.', 'h', 'e', 'x']).2.2
      (by decide) (by decide)⟩⟩

/-! ### Claim C10: `message_type` (lines 686-693) -/

/-- The nine type names of `message_type`. -/
def tnames : List String :=
  ["OS error", "error", "warning", "info", "notice",
   "notice2", "debug", "trace", "trace2"]

/-- Python tuple subscription `l[i]`: negative indices count from the end,
out-of-range access raises (`none`). -/
def pyTupleGet (l : List String) (i : Int) : Option String :=
  let j := if i < 0 then i + l.length else i
  if j < 0 then none
  else l[j.toNat]?

/-- `message_type` from `adgui.py` lines 686-693 (identical in
`swigtest.py` lines 175-182), parameterized by the library constant
`MSG_EXT_ERROR`: rebase the level, return `unknown msglvl` only when the
rebased level exceeds the tuple LENGTH, else subscript the tuple. -/
def message_type (msgExtError msglvl : Int) : Option String :=
  let rebased := msglvl - msgExtError
  if rebased > (tnames.length : Int) then some "unknown msglvl"
  else pyTupleGet tnames rebased

/-- C10 (failing input): at rebased index `9` the `>` guard does not fire
(`9 > 9` is false) and the nine-element tuple is subscripted out of
bounds, raising `IndexError` instead of returning `unknown msglvl`. -/
theorem C10_message_type_raises_at_nine (base : Int) :
    message_type base (base + 9) = none := by
  have h : base + 9 - base = (9 : Int) := by omega
  simp [message_type, h, pyTupleGet, tnames]

/-- C10 (divergence at negative rebased levels): one below the base, the
code wraps around and answers `trace2` rather than `unknown msglvl`. -/
theorem C10_message_type_wraps_below (base : Int) :
    message_type base (base - 1) = some "trace2" := by
  have h : base - 1 - base = (-1 : Int) := by omega
  simp [message_type, h, pyTupleGet, tnames]

/-! ### Claim C4: save handlers reject Auto and ELF
(`flash_save` 1071-1098, `eeprom_save` 1227-1254, `fuses_save` 1437-1468) -/

/-- The format radio buttons of a memories tab. -/
structure FormatChecks where
  auto : Bool
  elf : Bool
  ihex : Bool
  srec : Bool
  rbin : Bool
deriving DecidableEq

/-- The three formats `fileio` can be asked to write. -/
inductive FileFmt
  | ihex
  | srec
  | rbin
deriving DecidableEq

/-- Observable actions of a save handler. -/
inductive IoAction
  | logError
  | asked
  | fileio (fmt : FileFmt) (mem : String) (amnt : Int)
deriving DecidableEq

/-- The ihex/srec/rbin elif chain shared by the three save handlers. -/
def saveFormat (fmts : FormatChecks) : Option FileFmt :=
  if fmts.ihex then some .ihex
  else if fmts.srec then some .srec
  else if fmts.rbin then some .rbin
  else none

/-- `flash_save`: Auto/ELF fail fast with an error; an undetermined format
is an internal error; an existing target file pops a question whose
refusal aborts; otherwise `fileio` writes `flash_size` bytes (`-1` when
the buffer is empty). -/
def flash_save (fmts : FormatChecks) (fileExists userConfirms : Bool)
    (flashSize : Nat) : List IoAction :=
  if fmts.auto || fmts.elf then [.logError]
  else match saveFormat fmts with
    | none => [.logError]
    | some fmt =>
      if fileExists && !userConfirms then [.asked]
      else (if fileExists then [.asked] else [])
        ++ [.fileio fmt "flash" (if flashSize ≠ 0 then (flashSize : Int) else -1)]

/-- `eeprom_save`: same control flow against the eeprom widgets. -/
def eeprom_save (fmts : FormatChecks) (fileExists userConfirms : Bool)
    (eepromSize : Nat) : List IoAction :=
  if fmts.auto || fmts.elf then [.logError]
  else match saveFormat fmts with
    | none => [.logError]
    | some fmt =>
      if fileExists && !userConfirms then [.asked]
      else (if fileExists then [.asked] else [])
        ++ [.fileio fmt "eeprom" (if eepromSize ≠ 0 then (eepromSize : Int) else -1)]

/-- What `fuses_save` consults per fuse label. -/
structure FuseSlot where
  name : String
  changedFlag : Bool
  memFound : Bool
  memSize : Nat
  fileExists : Bool
  userConfirms : Bool
deriving DecidableEq

/-- `fuses_save`: the same Auto/ELF and format guards, then one write per
non-empty fuse label. -/
def fuses_save (fmts : FormatChecks) (slots : List FuseSlot) :
    List IoAction :=
  if fmts.auto || fmts.elf then [.logError]
  else match saveFormat fmts with
    | none => [.logError]
    | some fmt => slots.flatMap (fun sl =>
        if !sl.changedFlag then []
        else if !sl.memFound then [.logError]
        else if sl.fileExists && !sl.userConfirms then [.asked]
        else (if sl.fileExists then [.asked] else [])
          ++ [.fileio fmt sl.name (sl.memSize : Int)])

/-- C4: with Auto or ELF selected, each of the three save handlers logs an
error and returns before `fileio` is invoked — the emitted trace is the
single error log, containing no write action. -/
theorem C4_save_rejects_auto_elf (fmts : FormatChecks)
    (fe uc : Bool) (sz : Nat) (slots : List FuseSlot)
    (h : fmts.auto = true ∨ fmts.elf = true) :
    flash_save fmts fe uc sz = [.logError]
    ∧ eeprom_save fmts fe uc sz = [.logError]
    ∧ fuses_save fmts slots = [.logError] := by
  have hb : (fmts.auto || fmts.elf) = true := by
    rcases h with h | h <;> simp [h]
  exact ⟨by simp [flash_save, hb], by simp [eeprom_save, hb],
    by simp [fuses_save, hb]⟩

/-- C4 (witness): the ELF radio button selected on a state that would
otherwise write. -/
theorem C4_save_rejects_auto_elf_witness :
    ((⟨false, true, true, false, false⟩ : FormatChecks).auto = true
      ∨ (⟨false, true, true, false, false⟩ : FormatChecks).elf = true)
    ∧ flash_save ⟨false, true, true, false, false⟩ false true 4 = [.logError]
    ∧ eeprom_save ⟨false, true, true, false, false⟩ false true 4 = [.logError]
    ∧ fuses_save ⟨false, true, true, false, false⟩
        [⟨"lfuse", true, true, 1, false, true⟩] = [.logError] :=
  ⟨Or.inr rfl,
   C4_save_rejects_auto_elf ⟨false, true, true, false, false⟩ false true 4
     [⟨"lfuse", true, true, 1, false, true⟩] (Or.inr rfl)⟩

/-! ### Claim C5: `start_programmer` (lines 935-952) -/

/-- The calls and state changes `start_programmer` can make, in order. -/
inductive StartEvent
  | init_cx
  | initpgm
  | setup
  | openPort
  | logError
  | enable
  | initializeDev
  | logSuccess
  | uiProgrammingOn
  | uiAttachOff
  | uiDetachOn
deriving DecidableEq

/-- `start_programmer` from `adgui.py` lines 935-952, as a function of the
prior `connected` flag and of the value `pgm.open(port)` returns: returns
the emitted event trace and the new `connected` flag. -/
def start_programmer (connected : Bool) (openRv : Int) :
    List StartEvent × Bool :=
  if connected then ([], connected)
  else
    let pre := [StartEvent.init_cx, StartEvent.initpgm, StartEvent.setup,
      StartEvent.openPort]
    if openRv = -1 then (pre ++ [StartEvent.logError], false)
    else (pre ++ [StartEvent.enable, StartEvent.initializeDev,
      StartEvent.logSuccess, StartEvent.uiProgrammingOn,
      StartEvent.uiAttachOff, StartEvent.uiDetachOn], true)

/-- C5: in the disconnected state, an `open` returning the sentinel `-1`
logs an error, makes no further lifecycle call and stays disconnected;
any other return value leads to `enable` then `initialize` in that order
and `connected` becomes true. -/
theorem C5_start_programmer_lifecycle (openRv : Int) :
    (openRv = -1 →
      StartEvent.logError ∈ (start_programmer false openRv).1
      ∧ StartEvent.enable ∉ (start_programmer false openRv).1
      ∧ StartEvent.initializeDev ∉ (start_programmer false openRv).1
      ∧ (start_programmer false openRv).2 = false)
    ∧ (openRv ≠ -1 →
      (start_programmer false openRv).1
        = [.init_cx, .initpgm, .setup, .openPort, .enable, .initializeDev,
           .logSuccess, .uiProgrammingOn, .uiAttachOff, .uiDetachOn]
      ∧ (start_programmer false openRv).2 = true) := by
  constructor
  · intro h
    simp [start_programmer, h]
  · intro h
    simp [start_programmer, h]

/-- C5 (witness): the failure branch at `open = -1` and the success branch
at `open = 0`. -/
theorem C5_start_programmer_lifecycle_witness :
    (StartEvent.logError ∈ (start_programmer false (-1)).1
      ∧ StartEvent.enable ∉ (start_programmer false (-1)).1
      ∧ StartEvent.initializeDev ∉ (start_programmer false (-1)).1
      ∧ (start_programmer false (-1)).2 = false)
    ∧ ((start_programmer false 0).1
        = [.init_cx, .initpgm, .setup, .openPort, .enable, .initializeDev,
           .logSuccess, .uiProgrammingOn, .uiAttachOff, .uiDetachOn]
      ∧ (start_programmer false 0).2 = true) :=
  ⟨(C5_start_programmer_lifecycle (-1)).1 rfl,
   (C5_start_programmer_lifecycle 0).2 (by decide)⟩

/-! ### Claim C6: report logic and paging metadata
(`update_device_info` 840-882, `swigtest.getavr` 134-158) -/

/-- The memory descriptor fields the report logic consults. -/
structure Memory where
  desc : String
  size : Nat
  paged : Bool
  page_size : Nat
  num_pages : Nat
deriving DecidableEq

/-- `size_to_str` from `adgui.py` lines 150-153. -/
def size_to_str (size : Nat) : String :=
  if size ≥ 1024 then Nat.repr (size / 1024) ++ " KiB"
  else Nat.repr size ++ " B"

/-- `yesno` from `adgui.py` lines 155-158. -/
def yesno (val : Bool) : String := if val then "Y" else "N"

/-- One row of the device-info memories table built by
`update_device_info`: name, size and paged flag always; page size and
page count only when `paged` is set. -/
def deviceInfoRow (m : Memory) : List String :=
  [m.desc, size_to_str m.size, yesno m.paged]
    ++ (if m.paged then [size_to_str m.page_size, Nat.repr m.num_pages]
        else [])

/-- Python `f"{s:<w>s}"`: left-justify in a field of `w`. -/
def padStr (s : String) (w : Nat) : String :=
  s ++ String.mk (List.replicate (w - s.length) ' ')

/-- Python `f"{n:<w>d}"` for a non-negative `n`: right-justify. -/
def padNum (n w : Nat) : String :=
  String.mk (List.replicate (w - (Nat.repr n).length) ' ') ++ Nat.repr n

/-- Python `str(b)` for a bool. -/
def pyBoolStr (b : Bool) : String := if b then "True" else "False"

/-- One row of the `getavr` memory overview in `swigtest.py` line 149:
`f"{desc:11s} {size:6d}  {paged:5s}   {page_size:4d}      {num_pages:3d}"`,
printed for every memory, paged or not. -/
def getavrRow (m : Memory) : String :=
  padStr m.desc 11 ++ " " ++ padNum m.size 6 ++ "  "
    ++ padStr (pyBoolStr m.paged) 5 ++ "   " ++ padNum m.page_size 4
    ++ "      " ++ padNum m.num_pages 3

/-- C6 (counterexample): the `getavr` report consults `page_size` even for
a non-paged memory — two memories differing only there print different
rows. -/
theorem C6_counterexample_getavr_row :
    (⟨"eeprom", 512, false, 4, 128⟩ : Memory).paged = false
    ∧ getavrRow ⟨"eeprom", 512, false, 4, 128⟩
        ≠ getavrRow ⟨"eeprom", 512, false, 8, 128⟩ := by
  constructor
  · rfl
  · decide

/-- C6 (amended): the device-info table of the GUI is independent of
`page_size` and `num_pages` on non-paged memories (the `getavr` overview
of the test script is not: it prints both columns unconditionally). -/
theorem C6_deviceinfo_row_ignores_paging (m : Memory) (ps np : Nat)
    (h : m.paged = false) :
    deviceInfoRow { m with page_size := ps, num_pages := np }
      = deviceInfoRow m := by
  simp [deviceInfoRow, h]

/-- C6 (witness): a concrete non-paged memory whose paging fields do not
influence its device-info row. -/
theorem C6_deviceinfo_row_ignores_paging_witness :
    (⟨"eeprom", 512, false, 4, 128⟩ : Memory).paged = false
    ∧ deviceInfoRow { (⟨"eeprom", 512, false, 4, 128⟩ : Memory) with
        page_size := 8, num_pages := 1 }
      = deviceInfoRow ⟨"eeprom", 512, false, 4, 128⟩ :=
  ⟨rfl, C6_deviceinfo_row_ignores_paging ⟨"eeprom", 512, false, 4, 128⟩ 8 1 rfl⟩

/-! ### Claim C9: the duplicated `clear_buffer` method
(first definition 1061-1069, second definition 1217-1225) -/

/-- A named memory buffer with its allocation flags and declared size. -/
structure MemBuf where
  buf : List Nat
  allocFlags : List Bool
  size : Nat
deriving DecidableEq

/-- `m.clear(m.size)`: zero the content and the allocation flags. -/
def memClear (m : MemBuf) : MemBuf :=
  { m with buf := List.replicate m.size 0,
           allocFlags := List.replicate m.size false }

/-- The GUI state the two `clear_buffer` bodies touch. -/
structure GuiState where
  flash : Option MemBuf
  eeprom : Option MemBuf
  flash_size : Nat
  eeprom_size : Nat
deriving DecidableEq

/-- The first `clear_buffer` (lines 1061-1069): clear the flash buffer and
reset `flash_size` (a missing flash memory only logs an error). -/
def clear_buffer_flash (s : GuiState) : GuiState :=
  match s.flash with
  | none => s
  | some m => { s with flash := some (memClear m), flash_size := 0 }

/-- The second `clear_buffer` (lines 1217-1225): clear the eeprom buffer
and reset `eeprom_size`. -/
def clear_buffer_eeprom (s : GuiState) : GuiState :=
  match s.eeprom with
  | none => s
  | some m => { s with eeprom := some (memClear m), eeprom_size := 0 }

/-- Python class-body semantics: the bindings are executed in order into
the class dict, a later binding of the same name replacing the earlier
one; lookup returns the surviving binding. -/
def pyClassResolve {α : Type} : List (String × α) → String → Option α
  | [], _ => none
  | (n, v) :: t, key =>
    match pyClassResolve t key with
    | some w => some w
    | none => if n = key then some v else none

/-- The two `clear_buffer` bindings of the `adgui` class body, in source
order (lines 1061 and 1217). -/
def adguiClearBindings : List (String × (GuiState → GuiState)) :=
  [("clear_buffer", clear_buffer_flash), ("clear_buffer", clear_buffer_eeprom)]

/-- C9: the method the Clear action dispatches to is the second
definition; it clears the eeprom buffer and resets `eeprom_size` to 0
while leaving the flash buffer and `flash_size` untouched. -/
theorem C9_clear_buffer_hits_eeprom :
    pyClassResolve adguiClearBindings "clear_buffer" = some clear_buffer_eeprom
    ∧ (∀ s : GuiState, (clear_buffer_eeprom s).flash = s.flash
        ∧ (clear_buffer_eeprom s).flash_size = s.flash_size)
    ∧ (∀ (s : GuiState) (m : MemBuf), s.eeprom = some m →
        (clear_buffer_eeprom s).eeprom = some (memClear m)
        ∧ (clear_buffer_eeprom s).eeprom_size = 0) := by
  refine ⟨rfl, ?_, ?_⟩
  · intro s
    cases h : s.eeprom <;> simp [clear_buffer_eeprom, h]
  · intro s m h
    simp [clear_buffer_eeprom, h]

/-- C9 (witness): a concrete state holding both buffers. -/
theorem C9_clear_buffer_hits_eeprom_witness :
    ((⟨some ⟨[7], [true], 1⟩, some ⟨[2, 3], [true, false], 2⟩, 1, 2⟩ :
        GuiState).eeprom = some ⟨[2, 3], [true, false], 2⟩)
    ∧ ((clear_buffer_eeprom
        ⟨some ⟨[7], [true], 1⟩, some ⟨[2, 3], [true, false], 2⟩, 1, 2⟩).eeprom
          = some (memClear ⟨[2, 3], [true, false], 2⟩)
      ∧ (clear_buffer_eeprom
          ⟨some ⟨[7], [true], 1⟩, some ⟨[2, 3], [true, false], 2⟩, 1, 2⟩).eeprom_size
          = 0) :=
  ⟨rfl, (C9_clear_buffer_hits_eeprom).2.2
    ⟨some ⟨[7], [true], 1⟩, some ⟨[2, 3], [true, false], 2⟩, 1, 2⟩
    ⟨[2, 3], [true, false], 2⟩ rfl⟩

end Avrdude

